import Mathlib

/-!
Verification of the `sre-ai` MCP subsystem (Go sources under `internal/mcp`
and the local-server definition store) against its natural-language
specification.  The Go code is shallowly embedded: Go `map[string]T` values
become association lists with insert-replace semantics, byte streams become
`List Char`, fallible operations return `Except`/`Option`, and the
stdio/process side effects become explicit state records.
-/

namespace SreAI

/-! ## Association-list maps

Go string-keyed maps are modelled as association lists.  `mapInsert`
removes any previous binding and appends the new one, which gives Go map
assignment semantics (at most one binding per key when maps are built with
`mapInsert` from `[]`). -/

def mapLookup {α : Type} : List (String × α) → String → Option α
  | [], _ => none
  | (k, v) :: rest, key => if k = key then some v else mapLookup rest key

def mapErase {α : Type} : List (String × α) → String → List (String × α)
  | [], _ => []
  | (k, v) :: rest, key =>
      if k = key then mapErase rest key else (k, v) :: mapErase rest key

def mapInsert {α : Type} (m : List (String × α)) (key : String) (v : α) : List (String × α) :=
  mapErase m key ++ [(key, v)]

/-- `optOr a b` is `a` unless `a = none`, in which case it is `b`
(the shape of successive lookups through overlaid maps). -/
def optOr {α : Type} : Option α → Option α → Option α
  | some v, _ => some v
  | none, b => b

@[simp]
theorem optOr_some {α : Type} (v : α) (b : Option α) : optOr (some v) b = some v := rfl

@[simp]
theorem optOr_none {α : Type} (b : Option α) : optOr none b = b := rfl

@[simp]
theorem optOr_right_none {α : Type} (a : Option α) : optOr a none = a := by
  cases a <;> rfl

theorem mapLookup_append {α : Type} (l₁ l₂ : List (String × α)) (k : String) :
    mapLookup (l₁ ++ l₂) k = optOr (mapLookup l₁ k) (mapLookup l₂ k) := by
  induction l₁ with
  | nil => simp [mapLookup]
  | cons hd tl ih =>
      obtain ⟨k0, v0⟩ := hd
      by_cases h : k0 = k <;> simp [mapLookup, h, ih]

theorem mapLookup_erase_self {α : Type} (m : List (String × α)) (k : String) :
    mapLookup (mapErase m k) k = none := by
  induction m with
  | nil => rfl
  | cons hd tl ih =>
      obtain ⟨k0, v0⟩ := hd
      by_cases h : k0 = k <;> simp [mapErase, mapLookup, h, ih]

theorem mapLookup_erase_ne {α : Type} (m : List (String × α)) (k a : String) (h : a ≠ k) :
    mapLookup (mapErase m k) a = mapLookup m a := by
  induction m with
  | nil => rfl
  | cons hd tl ih =>
      obtain ⟨k0, v0⟩ := hd
      by_cases hk : k0 = k
      · have hka : ¬ k0 = a := fun hc => h (hc ▸ hk)
        simp [mapErase, mapLookup, hk, hka, Ne.symm h, ih]
      · by_cases ha : k0 = a <;> simp [mapErase, mapLookup, hk, ha, h, ih]

@[simp]
theorem mapLookup_insert_self {α : Type} (m : List (String × α)) (k : String) (v : α) :
    mapLookup (mapInsert m k v) k = some v := by
  simp [mapInsert, mapLookup_append, mapLookup_erase_self, mapLookup]

theorem mapLookup_insert_ne {α : Type} (m : List (String × α)) (k a : String) (v : α)
    (h : a ≠ k) :
    mapLookup (mapInsert m k v) a = mapLookup m a := by
  have hne : ¬ k = a := fun hc => h hc.symm
  simp [mapInsert, mapLookup_append, mapLookup_erase_ne m k a h, mapLookup, hne]

/-! ## Data model (`internal/mcp/client.go`)

`ServerDefinition`, `Source`, `Manifest` and the registry `Client` record
are embedded field by field.  `Manifest.transport/auth/tools/resources`
carry raw JSON in Go; no claim inspects them, so only the plainly typed
fields are kept and the raw bytes are carried as a string. -/

/-- `ServerDefinition` from `client.go`: how to launch a local MCP server.
Go `map[string]string` env becomes an association list. -/
structure ServerDefinition where
  command : String := ""
  args : List String := []
  env : List (String × String) := []
  workdir : String := ""
  notes : String := ""
deriving Repr, DecidableEq

/-- `Source` from `client.go`: provenance of a registry entry. -/
inductive Source where
  | Embedded
  | Config
  | Local
deriving Repr, DecidableEq

/-- `Manifest` from `client.go` (descriptive entries only; raw JSON fields
that no claim inspects are carried as their byte strings). -/
structure Manifest where
  name : String := ""
  version : String := ""
  capabilities : List String := []
  raw : String := ""
deriving Repr, DecidableEq

/-- `Client` from `client.go`: one registry entry. -/
structure Client where
  aliasName : String
  manifest : Option Manifest := none
  definition : Option ServerDefinition := none
  source : Source
  origin : String
deriving Repr, DecidableEq

/-- The registry's aliasName → client map (`Registry.clients` in `client.go`).
The `sync.RWMutex` is not modelled: all claims are about the sequential
contents of the map. -/
abbrev Registry := List (String × Client)

/-- `Registry.RegisterManifest`: insert-replace of a manifest entry. -/
def RegisterManifest (r : Registry) (aliasName : String) (m : Manifest) (source : Source)
    (origin : String) : Registry :=
  mapInsert r aliasName { aliasName := aliasName, manifest := some m, source := source, origin := origin }

/-- `Registry.RegisterLocal`: insert-replace of a launchable local entry;
the source is always `Local`. -/
def RegisterLocal (r : Registry) (aliasName : String) (d : ServerDefinition)
    (origin : String) : Registry :=
  mapInsert r aliasName { aliasName := aliasName, definition := some d, source := .Local, origin := origin }

/-- `Registry.Remove`. -/
def RegistryRemove (r : Registry) (aliasName : String) : Registry :=
  mapErase r aliasName

/-! ## Definition store (`AddLocalServer` etc., file `servers.json`)

The persisted store file is modelled at the level the Go code observes it:
`missing` (`os.ErrNotExist` from `os.ReadFile`), `unreadable` (any other
read error), `corrupt` (read succeeded, `json.Unmarshal` failed) or
`present` with the decoded aliasName → definition map.  JSON
marshalling/unmarshalling of well-formed store files is abstracted as the
identity on that map. -/

inductive StoreFile where
  | missing
  | unreadable
  | corrupt
  | present (servers : List (String × ServerDefinition))
deriving Repr, DecidableEq

/-- Outcome classification of `loadServerStore`: callers distinguish
`os.ErrNotExist` from every other failure via `errors.Is`. -/
inductive LoadResult where
  | notExist
  | failed
  | ok (servers : List (String × ServerDefinition))
deriving Repr, DecidableEq

/-- `loadServerStore`: read and decode the store file. -/
def loadServerStore : StoreFile → LoadResult
  | .missing => .notExist
  | .unreadable => .failed
  | .corrupt => .failed
  | .present l => .ok l

/-- The distinct error outcomes produced by the store operations
(the Go code returns `errors.New`/`fmt.Errorf` values with exactly these
messages). -/
inductive StoreError where
  | aliasEmpty
  | commandEmpty
  | noServers
  | unknownServer (aliasName : String)
  | loadFailed
deriving Repr, DecidableEq

/-- Classifies the store errors the spec calls NotFound:
"no MCP servers registered" and "unknown MCP server". -/
def StoreError.isNotFound : StoreError → Bool
  | .noServers => true
  | .unknownServer _ => true
  | _ => false

/-- The store path `ConfigDir()/mcp/servers.json`; resolution of the
user-specific `ConfigDir` base is abstracted as succeeding with a fixed
prefix. -/
def serverStorePath : String := "mcp/servers.json"

/-- `AddLocalServer` from the store source file: validate aliasName and
command, load the store (a missing file acts as an empty store), upsert,
save, and register the definition in the registry.  The result carries the
Go error return plus the post-state of the store file and registry;
`saveServerStore`'s own disk-write failures are abstracted as succeeding. -/
def AddLocalServer (aliasName : String) (d : ServerDefinition) (file : StoreFile)
    (reg : Registry) : Option StoreError × StoreFile × Registry :=
  if aliasName = "" then (some .aliasEmpty, file, reg)
  else if d.command = "" then (some .commandEmpty, file, reg)
  else
    match loadServerStore file with
    | .failed => (some .loadFailed, file, reg)
    | .notExist =>
        (none, .present (mapInsert [] aliasName d), RegisterLocal reg aliasName d serverStorePath)
    | .ok l =>
        (none, .present (mapInsert l aliasName d), RegisterLocal reg aliasName d serverStorePath)

/-- `RemoveLocalServer`: a missing store file is the "no MCP servers
registered" error, an absent aliasName the "unknown MCP server" error;
otherwise delete, save, and drop the registry entry. -/
def RemoveLocalServer (aliasName : String) (file : StoreFile) (reg : Registry) :
    Option StoreError × StoreFile × Registry :=
  match loadServerStore file with
  | .notExist => (some .noServers, file, reg)
  | .failed => (some .loadFailed, file, reg)
  | .ok l =>
      match mapLookup l aliasName with
      | none => (some (.unknownServer aliasName), file, reg)
      | some _ => (none, .present (mapErase l aliasName), RegistryRemove reg aliasName)

/-- `ListLocalServers`: a missing store file yields an empty map, not an
error (the Go code copies the map entry by entry, which is the identity
here). -/
def ListLocalServers (file : StoreFile) : Except StoreError (List (String × ServerDefinition)) :=
  match loadServerStore file with
  | .notExist => .ok []
  | .failed => .error .loadFailed
  | .ok l => .ok l

/-- `GetLocalServer`: a missing store file and an absent aliasName are both
errors. -/
def GetLocalServer (aliasName : String) (file : StoreFile) : Except StoreError ServerDefinition :=
  match loadServerStore file with
  | .notExist => .error .noServers
  | .failed => .error .loadFailed
  | .ok l =>
      match mapLookup l aliasName with
      | none => .error (.unknownServer aliasName)
      | some d => .ok d

/-- The persisted definition an aliasName maps to in a store file (none for a
missing or undecodable file). -/
def storeLookup : StoreFile → String → Option ServerDefinition
  | .present l, a => mapLookup l a
  | _, _ => none

/-! ## Warmup (`client.go` `Warmup`, `embedded.go`, `registerLocalServers`)

`Warmup` mutates the process-wide `DefaultRegistry` and returns an error;
the embedding passes the registry explicitly and returns the post-state
together with the optional error message, so the registry contents at the
moment of a failure stay observable.  The manifest files named by the
configuration are abstracted as a lookup function `loadManifest`
(the file system the probe host happens to have). -/

/-- The two compiled-in manifests from `embedded.go`.  Their JSON bytes
(`testdata/github.json`, `testdata/files.json`) are not part of the sources
and no claim inspects manifest contents, so the decoded values are left as
default records. -/
def githubManifest : Manifest := { name := "github" }

def filesManifest : Manifest := { name := "files" }

/-- `loadEmbeddedDefaults`: register the embedded `github` and `files`
manifests with source `Embedded` and origin "embedded".  Go iterates a
two-entry map in unspecified order; the aliases are distinct, so the
resulting registry is order-independent and one order is fixed here. -/
def loadEmbeddedDefaults (r : Registry) : Registry :=
  RegisterManifest (RegisterManifest r "github" githubManifest .Embedded "embedded")
    "files" filesManifest .Embedded "embedded"

/-- The `for alias, location := range opts.MCPServers` loop of `Warmup`:
load each manifest and register it with source `Config`; the first load
failure returns immediately with the wrapped error, leaving the registry as
mutated so far.  `expandPath` on the origin is the identity for paths not
starting with a tilde and is abstracted as such. -/
def warmupConfig (loadManifest : String → Except String Manifest) :
    List (String × String) → Registry → Registry × Option String
  | [], r => (r, none)
  | (a, location) :: rest, r =>
      match loadManifest location with
      | .error e => (r, some ("load manifest " ++ a ++ ": " ++ e))
      | .ok m => warmupConfig loadManifest rest (RegisterManifest r a m .Config location)

/-- The registry fold inside `registerLocalServers`:
`for alias, def := range store.Servers` with `RegisterLocal`. -/
def registerLocalFold (l : List (String × ServerDefinition)) (r : Registry) : Registry :=
  l.foldl (fun acc kv => RegisterLocal acc kv.1 kv.2 serverStorePath) r

/-- `registerLocalServers`: enumerate the persisted store and register each
entry; a missing store file is not an error (zero local entries). -/
def registerLocalServers (file : StoreFile) (r : Registry) : Registry × Option String :=
  match loadServerStore file with
  | .notExist => (r, none)
  | .failed => (r, some "server store load failed")
  | .ok l => (registerLocalFold l r, none)

/-- `Warmup` from `client.go`: reset, embedded defaults, config manifests
(fail-fast on the first load error), then persisted local definitions. -/
def Warmup (loadManifest : String → Except String Manifest)
    (mcpServers : List (String × String)) (file : StoreFile) : Registry × Option String :=
  let r1 := loadEmbeddedDefaults []
  match warmupConfig loadManifest mcpServers r1 with
  | (r2, some e) => (r2, some e)
  | (r2, none) => registerLocalServers file r2

/-! ## String helpers for the launcher and framing code

The Go code manipulates byte strings with `strings.TrimSpace`,
`strings.ToLower`, `strings.Split`, `strings.Join` and `strconv.Atoi`.
They are implemented here over `List Char`; Unicode-only differences
(e.g. `ToLower` of non-ASCII letters, exotic `IsSpace` code points) are
outside the ASCII wire and environment data these functions see. -/

/-- The ASCII white-space set of Go's `unicode.IsSpace`. -/
def isGoSpace (c : Char) : Bool :=
  c = ' ' || c = '\t' || c = '\n' || c = '\r' || c = '\x0b' || c = '\x0c'

def trimSpaceList (l : List Char) : List Char :=
  ((l.dropWhile isGoSpace).reverse.dropWhile isGoSpace).reverse

/-- `strings.TrimSpace`. -/
def goTrimSpace (s : String) : String :=
  String.mk (trimSpaceList s.data)

/-- `strings.ToLower` (ASCII case mapping). -/
def goToLower (s : String) : String :=
  String.mk (s.data.map Char.toLower)

/-- `strings.Split` with a single-character separator. -/
def splitSep (sep : Char) : List Char → List (List Char)
  | [] => [[]]
  | c :: rest =>
      match splitSep sep rest with
      | [] => if c = sep then [[], [c]] else [[c]]
      | h :: t => if c = sep then [] :: h :: t else (c :: h) :: t

/-- `strings.Join`. -/
def joinSep (sep : String) : List String → String
  | [] => ""
  | [x] => x
  | x :: y :: rest => x ++ sep ++ joinSep sep (y :: rest)

/-! ## Environment merge (`local.go` `mergeEnv`, `ensureNodeInPath`,
`buildCommand`)

`os.Environ()` is passed in as the list of raw `k=v` entries, and the
bundled-runtime directories found by `localNodeBinDirs` (a file-system
walk relative to `os.Executable()`) are passed in as a list, since both
are ambient process state. -/

/-- Splitting one `os.Environ()` entry at its first `=`
(entries without `=` are skipped by the caller). -/
def splitEnvEntry (kv : String) : Option (String × String) :=
  match kv.data.findIdx? (fun c => c = '=') with
  | none => none
  | some i => some (String.mk (kv.data.take i), String.mk (kv.data.drop (i + 1)))

/-- The base-environment loop of `mergeEnv`: decode `os.Environ()` into a
map, keeping entries with an `=` only. -/
def parseEnviron (environ : List String) : List (String × String) :=
  environ.foldl
    (fun acc kv =>
      match splitEnvEntry kv with
      | none => acc
      | some p => mapInsert acc p.1 p.2)
    []

/-- Overlaying a map with a list of entries, later entries winning — the
shape of every `for k, v := range custom` insert loop in `mergeEnv` and
`buildCommand`. -/
def overlayEnv (m : List (String × String)) (l : List (String × String)) :
    List (String × String) :=
  l.foldl (fun acc kv => mapInsert acc kv.1 kv.2) m

/-- `os.PathListSeparator` (Unix). -/
def pathListSep : Char := ':'

/-- `ensureNodeInPath` from `local.go`: if any bundled node directories
were discovered, prepend them (skipping empties, case-insensitively
de-duplicated), then append the original `PATH` entries (trimmed,
non-empty, case-insensitively de-duplicated against what is already
there). -/
def ensureNodeInPath (nodeDirs : List String) (existing : String) : String :=
  if nodeDirs = [] then existing
  else
    let step := fun (acc : List String × List String) (dir : String) =>
      if dir = "" then acc
      else if goToLower dir ∈ acc.2 then acc
      else (acc.1 ++ [dir], acc.2 ++ [goToLower dir])
    let start := nodeDirs.foldl step ([], [])
    let parts :=
      if existing = "" then []
      else (splitSep pathListSep existing.data).map String.mk
    let step2 := fun (acc : List String × List String) (part : String) =>
      let trimmed := goTrimSpace part
      if trimmed = "" then acc
      else if goToLower trimmed ∈ acc.2 then acc
      else (acc.1 ++ [trimmed], acc.2 ++ [goToLower trimmed])
    joinSep (String.mk [pathListSep]) (parts.foldl step2 start).1

/-- The map stage of `mergeEnv` from `local.go`: base environment overlaid
by `custom`, then the `PATH` entry rewritten through `ensureNodeInPath`
(a missing `PATH` reads as the empty string, as Go map access does). -/
def mergeEnvMap (environ : List String) (custom : List (String × String))
    (nodeDirs : List String) : List (String × String) :=
  let m := overlayEnv (parseEnviron environ) custom
  mapInsert m "PATH" (ensureNodeInPath nodeDirs ((mapLookup m "PATH").getD ""))

/-- `mergeEnv`'s final formatting: `k=v` strings sorted lexically
(`sort.Strings`). -/
def mergeEnv (environ : List String) (custom : List (String × String))
    (nodeDirs : List String) : List String :=
  ((mergeEnvMap environ custom nodeDirs).map (fun kv => kv.1 ++ "=" ++ kv.2)).insertionSort
    (fun a b => a ≤ b)

/-- The environment construction of `buildCommand`: definition env overlaid
by the extra env into one custom map, handed to `mergeEnv`.  Only the map
stage is exposed; formatting and sorting do not change the key → value
association. -/
def buildCommandEnv (environ : List String) (defEnv extraEnv : List (String × String))
    (nodeDirs : List String) : List (String × String) :=
  mergeEnvMap environ (overlayEnv (overlayEnv [] defEnv) extraEnv) nodeDirs

/-- Argument composition in `buildCommand`: definition args then extra
args. -/
def buildCommandArgs (defArgs extraArgs : List String) : List String :=
  defArgs ++ extraArgs

/-! ## Message framing (`local.go` `readFramedMessage`)

The child's stdout is a byte stream, modelled as `List Char`.
`readLineWithContext` wraps `bufio.Reader.ReadString` with a cancellation
race; cancellation is an external event, so the embedding keeps the
deterministic read: a line is the bytes up to and including a newline, and
a stream that ends without one is the read error `ReadString` reports at
EOF (the partial data is discarded by the caller, as in the source). -/

inductive FrameError where
  | readLineFailed
  | invalidContentLength (line : String)
  | missingContentLength
  | bodyTooShort
deriving Repr, DecidableEq

/-- `strconv.Atoi`: optional sign, then one or more decimal digits and
nothing else.  64-bit overflow is not modelled (the claims use small
numbers). -/
def goAtoi (s : String) : Except Unit Int :=
  match s.data with
  | [] => .error ()
  | c :: rest =>
      let signedDigits : Bool × List Char :=
        if c = '-' then (true, rest)
        else if c = '+' then (false, rest)
        else (false, c :: rest)
      match signedDigits with
      | (neg, digits) =>
          if digits = [] then .error ()
          else if digits.all (fun d => d.isDigit) then
            let v : Nat := digits.foldl (fun acc d => acc * 10 + (d.toNat - 48)) 0
            .ok (if neg then -(v : Int) else (v : Int))
          else .error ()

/-- Whether a trimmed header line starts with `content-length:`
(case-insensitive, `strings.HasPrefix` of the lowered line). -/
def headerIsContentLength (trimmed : String) : Bool :=
  List.isPrefixOf "content-length:".data (trimmed.data.map Char.toLower)

/-- The header value: the trimmed line after the 15-byte
`content-length:` key, trimmed again. -/
def contentLengthValue (trimmed : String) : String :=
  goTrimSpace (String.mk (trimmed.data.drop 15))

/-- The header-scanning loop of `readFramedMessage`, with
`readLineWithContext` fused in as character-by-character line assembly
(`acc` is the current partial line, `length` the last parsed
Content-Length, `-1` while none was seen).  A blank line breaks the scan
only once a nonnegative length is known; otherwise scanning continues.
A stream that ends mid-line is the EOF read error. -/
def scanHeaders : List Char → List Char → Int → Except FrameError (Int × List Char)
  | [], _, _ => .error .readLineFailed
  | c :: rest, acc, length =>
      if c = '\n' then
        if goTrimSpace (String.mk (acc ++ [c])) = "" then
          if 0 ≤ length then .ok (length, rest)
          else scanHeaders rest [] length
        else if headerIsContentLength (goTrimSpace (String.mk (acc ++ [c]))) then
          match goAtoi (contentLengthValue (goTrimSpace (String.mk (acc ++ [c])))) with
          | .error _ =>
              .error (.invalidContentLength (goTrimSpace (String.mk (acc ++ [c]))))
          | .ok l => scanHeaders rest [] l
        else scanHeaders rest [] length
      else scanHeaders rest (acc ++ [c]) length

/-- `io.ReadFull` of `n` bytes: exactly the next `n` bytes, or the
unexpected-EOF error when the stream is shorter. -/
def takeExact (n : Nat) (s : List Char) : Except FrameError (List Char × List Char) :=
  if n ≤ s.length then .ok (s.take n, s.drop n) else .error .bodyTooShort

/-- `readFramedMessage` from `local.go`: scan headers for a
Content-Length, then read exactly that many body bytes, returning the body
and leaving the rest of the stream unread.  The `length < 0` guard after
the loop is kept from the source (the loop only breaks with a nonnegative
length, so it cannot fire). -/
def readFramedMessage (s : List Char) : Except FrameError (List Char × List Char) :=
  match scanHeaders s [] (-1) with
  | .error e => .error e
  | .ok (length, rest) =>
      if length < 0 then .error .missingContentLength
      else takeExact length.toNat rest

/-! ## JSON-RPC correlation (`local.go` `awaitResponse`)

`awaitResponse` consumes framed, decoded envelopes.  The embedding works
on the stream of decoded envelopes the reader produces: the claims it
settles are about response correlation, and framing is verified
separately.  The cancellation context and the process-exit channel are
external events and not modelled; an exhausted stream is the read error.
A JSON-RPC id is an integer or a string per the envelope data model;
`RawId.other` keeps `rawMessageID`'s third case (any other JSON shape)
observable. -/

inductive RawId where
  | num (n : Int)
  | str (s : String)
  | other (raw : String)
deriving Repr, DecidableEq

/-- `rawMessageID`: integer ids are matched through their decimal string
form, string ids as themselves, anything else is the unsupported-id
error. -/
def rawMessageID : RawId → Except String String
  | .num n => .ok (toString n)
  | .str s => .ok s
  | .other raw => .error ("unsupported id type: " ++ raw)

structure JsonrpcError where
  code : Int
  message : String
  data : String := ""
deriving Repr, DecidableEq

/-- `jsonrpcEnvelope`: `method` is the Go zero value `""` when absent, and
`params`/`result` carry raw JSON opaque to the correlation loop. -/
structure JsonrpcEnvelope where
  id : Option RawId := none
  method : String := ""
  params : String := ""
  result : String := ""
  error : Option JsonrpcError := none
deriving Repr, DecidableEq

structure Notification where
  method : String
  detail : String
deriving Repr, DecidableEq

/-- `compactJSONRaw`: empty raw params give `""`; otherwise the payload is
trimmed.  The `json.Compact` whitespace removal inside the payload is
abstracted as this trim — no claim inspects the compacted interior. -/
def compactJSONRaw (raw : String) : String :=
  goTrimSpace raw

/-- The 400-character notification-detail cap from `awaitResponse`. -/
def truncateDetail (s : String) : String :=
  if 400 < s.data.length then String.mk (s.data.take 397) ++ "..." else s

def mkNotification (env : JsonrpcEnvelope) : Notification :=
  { method := env.method, detail := truncateDetail (compactJSONRaw env.params) }

/-- `respondMethodNotImplemented`: the JSON-RPC error reply written back
for an unsolicited server request — code `-32601`, the fixed message, the
request's id echoed. -/
structure JsonrpcReply where
  id : Option RawId
  code : Int
  message : String
deriving Repr, DecidableEq

def respondMethodNotImplemented (env : JsonrpcEnvelope) : JsonrpcReply :=
  { id := env.id
    code := -32601
    message := "method " ++ env.method ++ " not implemented in probe" }

inductive AwaitError where
  | streamEnded
  | unsupportedId (msg : String)
deriving Repr, DecidableEq

/-- The session state `awaitResponse` reads and writes: the pending
out-of-order response map, the recorded notifications, and the replies
written back to the server. -/
structure ProbeWireState where
  pending : List (String × JsonrpcEnvelope) := []
  notifications : List Notification := []
  sent : List JsonrpcReply := []
deriving Repr, DecidableEq

def emptyWireState : ProbeWireState := {}

/-- The read loop of `awaitResponse`: decode the next envelope; a message
with an id and a method is an unsolicited request (answer it with the
`-32601` reply and continue); with an id and no method it is either the
awaited response (return it) or an out-of-order response (store it in the
pending map and continue); with a method and no id it is a notification
(record it and continue); with neither, loop. -/
def awaitLoop (expectID : String) :
    List JsonrpcEnvelope → ProbeWireState →
      Except AwaitError (JsonrpcEnvelope × List JsonrpcEnvelope × ProbeWireState)
  | [], _ => .error .streamEnded
  | env :: rest, st =>
      match env.id with
      | some rid =>
          match rawMessageID rid with
          | .error msg => .error (.unsupportedId msg)
          | .ok idStr =>
              if env.method ≠ "" then
                awaitLoop expectID rest
                  { st with sent := st.sent ++ [respondMethodNotImplemented env] }
              else if idStr = expectID then .ok (env, rest, st)
              else awaitLoop expectID rest
                { st with pending := mapInsert st.pending idStr env }
      | none =>
          if env.method ≠ "" then
            awaitLoop expectID rest
              { st with notifications := st.notifications ++ [mkNotification env] }
          else awaitLoop expectID rest st

/-- `awaitResponse` from `local.go`: the pending map is consulted first
(and the hit removed); only on a miss does the read loop run. -/
def awaitResponse (expectID : String) (stream : List JsonrpcEnvelope)
    (st : ProbeWireState) :
    Except AwaitError (JsonrpcEnvelope × List JsonrpcEnvelope × ProbeWireState) :=
  match mapLookup st.pending expectID with
  | some env => .ok (env, stream, { st with pending := mapErase st.pending expectID })
  | none => awaitLoop expectID stream st

/-! ## Probe shutdown (`local.go` `probeLocalServer`, the deferred block)

The deferred shutdown flushes and closes the write side, then races the
process-exit channel against a grace timer whose length depends on whether
the probe reached a successful end, and kills the process when the timer
fires first.  Real time is abstracted into the race outcome
`exitsWithinGrace`; the durations and the event order are taken verbatim
from the source. -/

inductive ShutdownEvent where
  | flushWriter
  | closeStdin
  | processExited
  | killed
deriving Repr, DecidableEq

/-- The grace period in milliseconds as a function of the `success` flag:
`wait := 200ms; if success { wait = 750ms }`. -/
def shutdownGraceMillis (success : Bool) : Nat :=
  if success then 750 else 200

/-- How far a probe session got, grouping `probeLocalServer`'s
post-`Start` return paths: `handshakeFailed` covers every failure up to
and including the `initialize` exchange, its result decode and the
`notifications/initialized` send; `discoveryFailed` covers failures in the
`tools/list` loop after a successful handshake; `completed` is the single
path that reaches the final successful return. -/
inductive ProbeOutcome where
  | handshakeFailed
  | discoveryFailed
  | completed
deriving Repr, DecidableEq, Fintype

/-- Whether the session's `initialize` handshake succeeded: true for both
outcomes that got past the handshake. -/
def handshakeSucceeded : ProbeOutcome → Bool
  | .handshakeFailed => false
  | .discoveryFailed => true
  | .completed => true

/-- The `success` flag of `probeLocalServer`: initialized `false` before
the deferred shutdown is installed and assigned `true` at exactly one
place — immediately before the successful return, after the handshake,
every `tools/list` page and the result assembly have all succeeded.  Every
earlier `return` leaves it `false`. -/
def probeSuccessFlag : ProbeOutcome → Bool
  | .completed => true
  | _ => false

/-- The grace period the deferred shutdown actually uses for a session
with the given outcome. -/
def probeShutdownGraceMillis (o : ProbeOutcome) : Nat :=
  shutdownGraceMillis (probeSuccessFlag o)

/-- The ordered effects of the deferred shutdown block: flush, close
stdin, then either observe the exit within the grace period or kill the
process and collect the exit. -/
def shutdownSequence (_success : Bool) (exitsWithinGrace : Bool) : List ShutdownEvent :=
  [.flushWriter, .closeStdin] ++
    (if exitsWithinGrace then [.processExited] else [.killed, .processExited])

/-! # Claims -/

/-- A response envelope with integer id `n` and raw result payload `r`
(no method, no error: the response shape). -/
def responseEnvelope (n : Int) (r : String) : JsonrpcEnvelope :=
  { id := some (.num n), result := r }

/-- **C1**: when the server sends the responses to requests 1 and 2 out of
order (id 2 first), awaiting id "1" returns exactly the id-1 envelope and
leaves the id-2 envelope in the pending map, having consumed only those two
messages; the subsequent await of id "2" is served from the pending map
without reading anything further (the trailing stream is returned
untouched), for every result payload and every trailing stream. -/
theorem awaitResponse_out_of_order (r1 r2 : String) (extra : List JsonrpcEnvelope) :
    awaitResponse "1" (responseEnvelope 2 r2 :: responseEnvelope 1 r1 :: extra)
        emptyWireState =
      .ok (responseEnvelope 1 r1, extra,
        { emptyWireState with pending := [("2", responseEnvelope 2 r2)] }) ∧
    awaitResponse "2" extra
        { emptyWireState with pending := [("2", responseEnvelope 2 r2)] } =
      .ok (responseEnvelope 2 r2, extra, emptyWireState) := by
  constructor <;> rfl

/-- Closed instance of `awaitResponse_out_of_order`. -/
theorem awaitResponse_out_of_order_witness :
    awaitResponse "1" [responseEnvelope 2 "b", responseEnvelope 1 "a"] emptyWireState =
      .ok (responseEnvelope 1 "a", [],
        { emptyWireState with pending := [("2", responseEnvelope 2 "b")] }) :=
  (awaitResponse_out_of_order "a" "b" []).1

/-- **C3**: a message carrying both an id (of the envelope data model's
integer-or-string shape, i.e. one `rawMessageID` accepts) and a method is
answered immediately with the JSON-RPC error reply — code `-32601`,
message "method <name> not implemented in probe", the request's id
echoed — and the await loop continues with the remaining stream instead of
aborting. -/
theorem awaitResponse_unsolicited_request (expectID : String) (rid : RawId)
    (idStr m : String) (rest : List JsonrpcEnvelope) (st : ProbeWireState)
    (hp : mapLookup st.pending expectID = none)
    (hid : rawMessageID rid = .ok idStr)
    (hm : m ≠ "") :
    awaitResponse expectID ({ id := some rid, method := m } :: rest) st =
      awaitLoop expectID rest
        { st with sent := st.sent ++
            [{ id := some rid, code := -32601,
               message := "method " ++ m ++ " not implemented in probe" }] } := by
  simp [awaitResponse, hp, awaitLoop, hid, hm, respondMethodNotImplemented]

/-- Closed instance of `awaitResponse_unsolicited_request`: an unsolicited
`ping` request with id 7 is answered and the loop continues (and, the
stream being exhausted afterwards, the await itself then reports the read
error rather than a protocol abort). -/
theorem awaitResponse_unsolicited_request_witness :
    mapLookup emptyWireState.pending "1" = none ∧
    rawMessageID (.num 7) = .ok "7" ∧
    "ping" ≠ "" ∧
    awaitResponse "1" [{ id := some (.num 7), method := "ping" }] emptyWireState =
      awaitLoop "1" []
        { emptyWireState with sent :=
            [{ id := some (.num 7), code := -32601,
               message := "method " ++ "ping" ++ " not implemented in probe" }] } :=
  ⟨rfl, rfl, by decide,
    awaitResponse_unsolicited_request "1" (.num 7) "7" "ping" [] emptyWireState rfl rfl
      (by decide)⟩

/-- **C4 counterexample**: the claim keys the grace period on whether the
probe reached a successful handshake, but the `success` flag is set only
after the whole probe succeeds.  A session whose handshake succeeded and
whose tool discovery then failed runs the shutdown with the short 200ms
grace, not the longer one the claim predicts for a successful
handshake. -/
theorem probeLocalServer_shutdown_counterexample :
    handshakeSucceeded .discoveryFailed = true ∧
    probeShutdownGraceMillis .discoveryFailed = 200 ∧
    probeShutdownGraceMillis .discoveryFailed ≠ 750 := by
  decide

/-- **C4 amended**: the deferred probe shutdown flushes and closes the
write side first; the grace period is chosen by whether the probe ran to
successful completion (handshake *and* tool discovery): 200ms when it did
not — including sessions whose handshake succeeded but whose tool
discovery failed — and 750ms (strictly longer) when it did; and the
process is killed exactly when it does not exit within the grace
period. -/
theorem probeLocalServer_shutdown :
    (∀ success exits,
        (shutdownSequence success exits).take 2 =
          [ShutdownEvent.flushWriter, ShutdownEvent.closeStdin]) ∧
    (∀ o, probeShutdownGraceMillis o = if o = .completed then 750 else 200) ∧
    (∀ o, probeSuccessFlag o = true ↔ o = .completed) ∧
    probeShutdownGraceMillis .discoveryFailed = 200 ∧
    shutdownGraceMillis false < shutdownGraceMillis true ∧
    (∀ success, ShutdownEvent.killed ∈ shutdownSequence success false ∧
        ShutdownEvent.killed ∉ shutdownSequence success true) := by
  decide

/-- Closed instance of `probeLocalServer_shutdown`. -/
theorem probeLocalServer_shutdown_witness :
    probeShutdownGraceMillis .completed = 750 ∧
    ShutdownEvent.killed ∈ shutdownSequence true false :=
  ⟨(probeLocalServer_shutdown.2.1 .completed).trans rfl,
    (probeLocalServer_shutdown.2.2.2.2.2 true).1⟩

/-- The header scan only ever consumes a prefix of the stream, and it can
only break out with a nonnegative length. -/
theorem scanHeaders_sound (s : List Char) :
    ∀ acc len n r, scanHeaders s acc len = .ok (n, r) →
      (∃ c, s = c ++ r) ∧ 0 ≤ n := by
  induction s with
  | nil =>
      intro acc len n r h
      exact absurd h (by simp [scanHeaders])
  | cons c rest ih =>
      intro acc len n r h
      rw [scanHeaders] at h
      split at h
      · split at h
        · split at h
          · simp only [Except.ok.injEq, Prod.mk.injEq] at h
            refine ⟨⟨[c], ?_⟩, ?_⟩
            · rw [← h.2]; rfl
            · rename_i hlen
              exact h.1 ▸ hlen
          · obtain ⟨⟨c2, hc2⟩, hn⟩ := ih [] len n r h
            exact ⟨⟨c :: c2, by rw [hc2]; rfl⟩, hn⟩
        · split at h
          · split at h
            · exact absurd h (by simp)
            · obtain ⟨⟨c2, hc2⟩, hn⟩ := ih [] _ n r h
              exact ⟨⟨c :: c2, by rw [hc2]; rfl⟩, hn⟩
          · obtain ⟨⟨c2, hc2⟩, hn⟩ := ih [] len n r h
            exact ⟨⟨c :: c2, by rw [hc2]; rfl⟩, hn⟩
      · obtain ⟨⟨c2, hc2⟩, hn⟩ := ih (acc ++ [c]) len n r h
        exact ⟨⟨c :: c2, by rw [hc2]; rfl⟩, hn⟩

/-- `takeExact` returns exactly `n` bytes and splits the stream. -/
theorem takeExact_sound (n : Nat) (s body rest : List Char)
    (h : takeExact n s = .ok (body, rest)) :
    body.length = n ∧ s = body ++ rest := by
  unfold takeExact at h
  split at h
  · simp only [Except.ok.injEq, Prod.mk.injEq] at h
    rename_i hle
    refine ⟨?_, ?_⟩
    · rw [← h.1]
      simpa using hle
    · rw [← h.1, ← h.2]
      exact (List.take_append_drop n s).symm
  · exact absurd h (by simp)

/-- **C2**: reading one framed message scans header lines until a blank
line and on success returns exactly the `n` body bytes the header scan
declared, leaving everything after them unread (`s = consumed ++ body ++
rest`); the header being absent, its value being non-numeric, or no blank
line following a nonnegative length each produce an error, shown on
representative inputs — including the spec's truncated-body example, where
the declared length 5 yields exactly the 5 bytes and the excess stays in
the stream for a later (failing) decode. -/
theorem readFramedMessage_spec :
    (∀ s body rest, readFramedMessage s = .ok (body, rest) →
        ∃ n, scanHeaders s [] (-1) = .ok (n, body ++ rest) ∧ 0 ≤ n ∧
          body.length = n.toNat ∧ ∃ consumed, s = consumed ++ body ++ rest) ∧
    readFramedMessage "X-Other: 1\r\n\r\n".data = .error .readLineFailed ∧
    readFramedMessage "Content-Length: five\r\n\r\n".data =
      .error (.invalidContentLength "Content-Length: five") ∧
    readFramedMessage "Content-Length: -3\r\n\r\n".data = .error .readLineFailed ∧
    readFramedMessage ("Content-Length: 5\r\n\r\n\x7b\"a\":1\x7d").data =
      .ok ("\x7b\"a\":".data, "1\x7d".data) := by
  refine ⟨?_, rfl, rfl, rfl, rfl⟩
  intro s body rest h
  unfold readFramedMessage at h
  split at h
  · exact absurd h (by simp)
  · rename_i n0 r0 heq
    split at h
    · exact absurd h (by simp)
    · rename_i hneg
      obtain ⟨hlen, hsplit⟩ := takeExact_sound _ _ _ _ h
      obtain ⟨⟨c0, hc0⟩, hn0⟩ := scanHeaders_sound s [] (-1) n0 r0 heq
      refine ⟨n0, ?_, hn0, hlen.symm ▸ rfl, c0, ?_⟩
      · rw [heq, hsplit]
      · rw [hc0, hsplit]; simp

/-- Closed instance of the success part of `readFramedMessage_spec`, at the
spec's truncated-body example. -/
theorem readFramedMessage_spec_witness :
    readFramedMessage ("Content-Length: 5\r\n\r\n\x7b\"a\":1\x7d").data =
        .ok ("\x7b\"a\":".data, "1\x7d".data) ∧
    ∃ n, scanHeaders ("Content-Length: 5\r\n\r\n\x7b\"a\":1\x7d").data [] (-1) =
          .ok (n, "\x7b\"a\":".data ++ "1\x7d".data) ∧ 0 ≤ n ∧
        ("\x7b\"a\":".data).length = n.toNat ∧
        ∃ consumed, ("Content-Length: 5\r\n\r\n\x7b\"a\":1\x7d").data =
          consumed ++ "\x7b\"a\":".data ++ "1\x7d".data :=
  ⟨rfl, readFramedMessage_spec.1 _ _ _ rfl⟩

/-- A manifest loader for which every location fails to load. -/
def failingLoader : String → Except String Manifest :=
  fun _ => .error "boom"

/-- A manifest loader for which every location loads (as an empty
manifest record). -/
def succeedingLoader : String → Except String Manifest :=
  fun _ => .ok {}

/-- A one-entry configuration and a one-entry persisted store used as
concrete warmup scenarios. -/
def demoConfig : List (String × String) := [("bad", "bad.json")]

def demoStore : List (String × ServerDefinition) := [("loc", { command := "run" })]

/-- **C5 counterexample**: with one config manifest whose load fails and a
persisted local definition, `Warmup` does return the wrapped load error,
but the registry it leaves behind is exactly the embedded defaults — a
strict subset of the aliases a successful warmup (same inputs, loadable
manifest) would have registered, so a partial registry does remain. -/
theorem warmup_partial_registry_counterexample :
    (Warmup failingLoader demoConfig (.present demoStore)).2 =
      some "load manifest bad: boom" ∧
    (Warmup failingLoader demoConfig (.present demoStore)).1.map Prod.fst =
      ["github", "files"] ∧
    (Warmup succeedingLoader demoConfig (.present demoStore)).1.map Prod.fst =
      ["github", "files", "bad", "loc"] ∧
    (∀ a ∈ (Warmup failingLoader demoConfig (.present demoStore)).1.map Prod.fst,
        a ∈ (Warmup succeedingLoader demoConfig (.present demoStore)).1.map Prod.fst) ∧
    "loc" ∈ (Warmup succeedingLoader demoConfig (.present demoStore)).1.map Prod.fst ∧
    "loc" ∉ (Warmup failingLoader demoConfig (.present demoStore)).1.map Prod.fst := by
  refine ⟨rfl, rfl, rfl, by decide, by decide, by decide⟩

/-- The config loop registers every manifest before the first failing one
and stops there with the wrapped error. -/
theorem warmupConfig_append_fail (loadM : String → Except String Manifest)
    (a loc e : String) (post : List (String × String)) (hfail : loadM loc = .error e) :
    ∀ (pre : List (String × String)) (r : Registry),
      (∀ p ∈ pre, ∃ m, loadM p.2 = .ok m) →
      warmupConfig loadM (pre ++ (a, loc) :: post) r =
        ((warmupConfig loadM pre r).1, some ("load manifest " ++ a ++ ": " ++ e)) := by
  intro pre
  induction pre with
  | nil => intro r _; simp [warmupConfig, hfail]
  | cons hd tl ih =>
      intro r hpre
      obtain ⟨m, hm⟩ := hpre hd (by simp)
      obtain ⟨a0, l0⟩ := hd
      simp only [List.cons_append, warmupConfig, hm]
      exact ih _ (fun p hp => hpre p (by simp [hp]))

/-- **C5 amended**: when a config manifest fails to load, `Warmup` aborts
with the wrapped error, registers nothing further (neither the remaining
config manifests nor any local definitions), and leaves the registry in
the partially rebuilt state: the embedded defaults plus the config
manifests registered before the failure.  (The original claim's "leaves no
partial registry" does not hold — there is no rollback.) -/
theorem warmup_fail_fast (loadM : String → Except String Manifest)
    (pre post : List (String × String)) (a loc e : String) (file : StoreFile)
    (hpre : ∀ p ∈ pre, ∃ m, loadM p.2 = .ok m)
    (hfail : loadM loc = .error e) :
    Warmup loadM (pre ++ (a, loc) :: post) file =
      ((warmupConfig loadM pre (loadEmbeddedDefaults [])).1,
        some ("load manifest " ++ a ++ ": " ++ e)) := by
  simp only [Warmup]
  rw [warmupConfig_append_fail loadM a loc e post hfail pre (loadEmbeddedDefaults []) hpre]

/-- Closed instance of `warmup_fail_fast`. -/
theorem warmup_fail_fast_witness :
    failingLoader "bad.json" = .error "boom" ∧
    Warmup failingLoader demoConfig (.present demoStore) =
      ((warmupConfig failingLoader [] (loadEmbeddedDefaults [])).1,
        some ("load manifest " ++ "bad" ++ ": " ++ "boom")) :=
  ⟨rfl,
    warmup_fail_fast failingLoader [] [] "bad" "bad.json" "boom" (.present demoStore)
      (by simp) rfl⟩

/-- Folding `RegisterLocal` over store entries does not touch other
aliases. -/
theorem registerLocalFold_lookup_not_mem (l : List (String × ServerDefinition)) :
    ∀ (r : Registry) (a : String), a ∉ l.map Prod.fst →
      mapLookup (registerLocalFold l r) a = mapLookup r a := by
  induction l with
  | nil => intro r a _; rfl
  | cons hd tl ih =>
      intro r a ha
      have h1 : a ∉ tl.map Prod.fst := fun hc => ha (by simp [hc])
      have h2 : a ≠ hd.1 := fun hc => ha (by simp [hc])
      show mapLookup (registerLocalFold tl (RegisterLocal r hd.1 hd.2 serverStorePath)) a = _
      rw [ih _ a h1]
      simp only [RegisterLocal]
      exact mapLookup_insert_ne _ _ _ _ h2

/-- Every alias registered by the local fold ends with source `Local`. -/
theorem registerLocalFold_source_local (l : List (String × ServerDefinition)) :
    ∀ (r : Registry) (a : String), a ∈ l.map Prod.fst →
      ∃ c, mapLookup (registerLocalFold l r) a = some c ∧ c.source = .Local := by
  induction l with
  | nil => intro r a ha; exact absurd ha (by simp)
  | cons hd tl ih =>
      intro r a ha
      by_cases h : a ∈ tl.map Prod.fst
      · exact ih (RegisterLocal r hd.1 hd.2 serverStorePath) a h
      · have ha1 : a = hd.1 := by
          rcases (by simpa using ha : a = hd.1 ∨ a ∈ tl.map Prod.fst) with h1 | h1
          · exact h1
          · exact absurd h1 h
        show ∃ c, mapLookup (registerLocalFold tl (RegisterLocal r hd.1 hd.2 serverStorePath)) a =
          some c ∧ c.source = .Local
        rw [registerLocalFold_lookup_not_mem tl _ a h, ha1]
        simp only [RegisterLocal]
        exact ⟨_, mapLookup_insert_self _ _ _, rfl⟩

/-- **C6**: after a successful `Warmup`, every alias present in the
persisted local store — in particular any alias that also exists as an
embedded default or config manifest — is mapped by the registry to an
entry with source `local`, because local definitions are registered last
and registration replaces the prior entry. -/
theorem warmup_local_precedence (loadM : String → Except String Manifest)
    (cfg : List (String × String)) (l : List (String × ServerDefinition)) (a : String)
    (hsucc : (Warmup loadM cfg (.present l)).2 = none)
    (hmem : a ∈ l.map Prod.fst) :
    ∃ c, mapLookup (Warmup loadM cfg (.present l)).1 a = some c ∧ c.source = .Local := by
  simp only [Warmup] at hsucc ⊢
  rcases hcfg : warmupConfig loadM cfg (loadEmbeddedDefaults []) with ⟨r2, e⟩
  cases e with
  | some err =>
      rw [hcfg] at hsucc
      exact absurd hsucc (by simp)
  | none => exact registerLocalFold_source_local l r2 a hmem

/-- Closed instance of `warmup_local_precedence`: the `loc` alias ends up
with source `local` after a warmup whose store contains it. -/
theorem warmup_local_precedence_witness :
    (Warmup succeedingLoader demoConfig (.present demoStore)).2 = none ∧
    "loc" ∈ demoStore.map Prod.fst ∧
    ∃ c, mapLookup (Warmup succeedingLoader demoConfig (.present demoStore)).1 "loc" =
        some c ∧ c.source = .Local :=
  ⟨rfl, by decide,
    warmup_local_precedence succeedingLoader demoConfig demoStore "loc" rfl (by decide)⟩

/-! ## Overlay bookkeeping for the environment-merge claim -/

/-- The last binding of a key in an entry list: inserting the entries one
by one into a map leaves exactly this binding for the key. -/
def lastLookup {α : Type} (m : List (String × α)) (k : String) : Option α :=
  mapLookup m.reverse k

theorem optOr_assoc {α : Type} (a b c : Option α) :
    optOr (optOr a b) c = optOr a (optOr b c) := by
  cases a <;> cases b <;> rfl

theorem lastLookup_cons {α : Type} (k0 : String) (v0 : α) (t : List (String × α))
    (k : String) :
    lastLookup ((k0, v0) :: t) k = optOr (lastLookup t k) (if k0 = k then some v0 else none) := by
  simp only [lastLookup, List.reverse_cons, mapLookup_append, mapLookup]

theorem mapErase_reverse {α : Type} (m : List (String × α)) (k : String) :
    (mapErase m k).reverse = mapErase m.reverse k := by
  induction m with
  | nil => rfl
  | cons hd tl ih =>
      obtain ⟨k0, v0⟩ := hd
      by_cases h : k0 = k
      · simp only [mapErase, if_pos h, List.reverse_cons, ih]
        rw [show mapErase (tl.reverse ++ [(k0, v0)]) k =
              mapErase tl.reverse k ++ mapErase [(k0, v0)] k from ?_]
        · simp [mapErase, h]
        · induction tl.reverse with
          | nil => rfl
          | cons hd2 tl2 ih2 =>
              obtain ⟨k2, v2⟩ := hd2
              by_cases h2 : k2 = k <;> simp [mapErase, h2, ih2]
      · simp only [mapErase, if_neg h, List.reverse_cons, ih]
        rw [show mapErase (tl.reverse ++ [(k0, v0)]) k =
              mapErase tl.reverse k ++ mapErase [(k0, v0)] k from ?_]
        · simp [mapErase, h]
        · induction tl.reverse with
          | nil => rfl
          | cons hd2 tl2 ih2 =>
              obtain ⟨k2, v2⟩ := hd2
              by_cases h2 : k2 = k <;> simp [mapErase, h2, ih2]

theorem lastLookup_insert {α : Type} (m : List (String × α)) (k0 k : String) (v0 : α) :
    lastLookup (mapInsert m k0 v0) k = if k0 = k then some v0 else lastLookup m k := by
  simp only [lastLookup, mapInsert, List.reverse_append, List.reverse_cons,
    List.reverse_nil, List.nil_append, List.cons_append, mapLookup]
  by_cases h : k0 = k
  · simp [h]
  · simp only [if_neg h]
    rw [mapErase_reverse]
    exact mapLookup_erase_ne _ _ _ (fun hc => h hc.symm)

theorem mapLookup_insert_cases {α : Type} (m : List (String × α)) (k0 k : String) (v0 : α) :
    mapLookup (mapInsert m k0 v0) k = if k0 = k then some v0 else mapLookup m k := by
  by_cases h : k0 = k
  · rw [if_pos h, h, mapLookup_insert_self]
  · rw [if_neg h, mapLookup_insert_ne _ _ _ _ (fun hc => h hc.symm)]

/-- Looking a key up after overlaying a map with an entry list: the last
binding in the list wins, otherwise the map's binding shows through. -/
theorem mapLookup_overlayEnv (l : List (String × String)) :
    ∀ (m : List (String × String)) (k : String),
      mapLookup (overlayEnv m l) k = optOr (lastLookup l k) (mapLookup m k) := by
  induction l with
  | nil => intro m k; rfl
  | cons hd tl ih =>
      intro m k
      obtain ⟨k0, v0⟩ := hd
      show mapLookup (overlayEnv (mapInsert m k0 v0) tl) k = _
      rw [ih (mapInsert m k0 v0) k, lastLookup_cons, mapLookup_insert_cases, optOr_assoc]
      cases htl : lastLookup tl k <;> by_cases h : k0 = k <;> simp [h]

/-- `lastLookup` across an overlay. -/
theorem lastLookup_overlayEnv (l : List (String × String)) :
    ∀ (m : List (String × String)) (k : String),
      lastLookup (overlayEnv m l) k = optOr (lastLookup l k) (lastLookup m k) := by
  induction l with
  | nil => intro m k; rfl
  | cons hd tl ih =>
      intro m k
      obtain ⟨k0, v0⟩ := hd
      show lastLookup (overlayEnv (mapInsert m k0 v0) tl) k = _
      rw [ih (mapInsert m k0 v0) k, lastLookup_cons, lastLookup_insert, optOr_assoc]
      cases htl : lastLookup tl k <;> by_cases h : k0 = k <;> simp [h]

/-- Building the custom map from scratch and overlaying it over the base
is, lookup-wise, the three-layer overlay base → definition env → extra
env. -/
theorem mapLookup_overlay_custom (base d e : List (String × String)) (k : String) :
    mapLookup (overlayEnv base (overlayEnv (overlayEnv [] d) e)) k =
      mapLookup (overlayEnv (overlayEnv base d) e) k := by
  rw [mapLookup_overlayEnv, mapLookup_overlayEnv, mapLookup_overlayEnv,
    lastLookup_overlayEnv, lastLookup_overlayEnv]
  have hnil : lastLookup ([] : List (String × String)) k = none := rfl
  rw [hnil, optOr_right_none, optOr_assoc]

/-- **C7 counterexample**: with a bundled node runtime directory present,
the `PATH` entry of the launched command's environment is not the
three-layer overlay value — the base `PATH`, mentioned in neither overlay,
is rewritten with the runtime directory prepended, so the claimed "base
keys not mentioned in either overlay are left untouched" fails at
`PATH`. -/
theorem buildCommandEnv_path_counterexample :
    mapLookup (buildCommandEnv ["PATH=/usr/bin", "A=1"] [("A", "2"), ("B", "3")]
        [("B", "4")] ["/opt/node/bin"]) "PATH" = some "/opt/node/bin:/usr/bin" ∧
    mapLookup (overlayEnv (overlayEnv (parseEnviron ["PATH=/usr/bin", "A=1"])
        [("A", "2"), ("B", "3")]) [("B", "4")]) "PATH" = some "/usr/bin" ∧
    ("/opt/node/bin:/usr/bin" : String) ≠ "/usr/bin" := by
  refine ⟨rfl, rfl, by decide⟩

/-- **C7 amended**: for every key other than `PATH`, the environment map
handed to the launched command is exactly the base environment overlaid by
the definition env overlaid by the extra env (later layers win, untouched
base keys show through); the `PATH` entry additionally passes through the
bundled-runtime augmentation `ensureNodeInPath` (which is the identity
when no bundled runtime directory was discovered). -/
theorem buildCommandEnv_precedence (environ : List String)
    (defEnv extraEnv : List (String × String)) (nodeDirs : List String) (k : String)
    (hk : k ≠ "PATH") :
    mapLookup (buildCommandEnv environ defEnv extraEnv nodeDirs) k =
      mapLookup (overlayEnv (overlayEnv (parseEnviron environ) defEnv) extraEnv) k ∧
    mapLookup (buildCommandEnv environ defEnv extraEnv nodeDirs) "PATH" =
      some (ensureNodeInPath nodeDirs
        ((mapLookup (overlayEnv (overlayEnv (parseEnviron environ) defEnv) extraEnv)
            "PATH").getD "")) ∧
    (∀ p, ensureNodeInPath [] p = p) := by
  refine ⟨?_, ?_, fun p => rfl⟩
  · simp only [buildCommandEnv, mergeEnvMap]
    rw [mapLookup_insert_ne _ _ _ _ hk]
    exact mapLookup_overlay_custom _ _ _ _
  · simp only [buildCommandEnv, mergeEnvMap]
    rw [mapLookup_insert_self, mapLookup_overlay_custom]

/-- Closed instance of `buildCommandEnv_precedence` at the spec's example:
base `A=1`, definition `A:2, B:3`, extra `B:4` (no bundled runtime) gives
`A=2` and `B=4`. -/
theorem buildCommandEnv_precedence_witness :
    ("A" : String) ≠ "PATH" ∧
    (mapLookup (buildCommandEnv ["A=1"] [("A", "2"), ("B", "3")] [("B", "4")] []) "A" =
        mapLookup (overlayEnv (overlayEnv (parseEnviron ["A=1"]) [("A", "2"), ("B", "3")])
          [("B", "4")]) "A" ∧
      mapLookup (buildCommandEnv ["A=1"] [("A", "2"), ("B", "3")] [("B", "4")] []) "PATH" =
        some (ensureNodeInPath []
          ((mapLookup (overlayEnv (overlayEnv (parseEnviron ["A=1"]) [("A", "2"), ("B", "3")])
              [("B", "4")]) "PATH").getD "")) ∧
      (∀ p, ensureNodeInPath [] p = p)) ∧
    mapLookup (buildCommandEnv ["A=1"] [("A", "2"), ("B", "3")] [("B", "4")] []) "A" =
      some "2" ∧
    mapLookup (buildCommandEnv ["A=1"] [("A", "2"), ("B", "3")] [("B", "4")] []) "B" =
      some "4" :=
  ⟨by decide,
    buildCommandEnv_precedence ["A=1"] [("A", "2"), ("B", "3")] [("B", "4")] [] "A"
      (by decide),
    rfl, rfl⟩

/-- **C8**: when `AddLocalServer` succeeds, `GetLocalServer` on the same
alias against the resulting store returns exactly the saved definition;
and an empty alias or an empty command makes `AddLocalServer` fail with
the respective validation error, leaving the store file and the registry
untouched. -/
theorem addLocalServer_get_roundtrip (a : String) (d : ServerDefinition)
    (file : StoreFile) (reg : Registry) :
    ((AddLocalServer a d file reg).1 = none →
        GetLocalServer a (AddLocalServer a d file reg).2.1 = .ok d) ∧
    (a = "" → AddLocalServer a d file reg = (some .aliasEmpty, file, reg)) ∧
    (a ≠ "" → d.command = "" →
        AddLocalServer a d file reg = (some .commandEmpty, file, reg)) := by
  refine ⟨?_, ?_, ?_⟩
  · intro h
    by_cases ha : a = "" <;> by_cases hc : d.command = "" <;> cases file <;>
      simp [AddLocalServer, GetLocalServer, loadServerStore, ha, hc] at h ⊢
  · intro ha
    simp [AddLocalServer, ha]
  · intro ha hc
    simp [AddLocalServer, ha, hc]

/-- Closed instance of `addLocalServer_get_roundtrip`: a round trip
through a missing store, and the empty-alias validation failure. -/
theorem addLocalServer_get_roundtrip_witness :
    GetLocalServer "srv" (AddLocalServer "srv" { command := "run" } .missing []).2.1 =
      .ok { command := "run" } ∧
    AddLocalServer "" { command := "run" } .missing [] =
      (some .aliasEmpty, .missing, []) :=
  ⟨(addLocalServer_get_roundtrip "srv" { command := "run" } .missing []).1 rfl,
    (addLocalServer_get_roundtrip "" { command := "run" } .missing []).2.1 rfl⟩

/-- **C9**: `ListLocalServers` on a missing store file returns the empty
mapping without an error; `GetLocalServer` on a missing store file fails
with the "no MCP servers registered" error, and on a present store whose
map lacks the alias with the "unknown MCP server" error — both classified
NotFound. -/
theorem store_missing_semantics :
    ListLocalServers .missing = .ok [] ∧
    (∀ a, GetLocalServer a .missing = .error .noServers) ∧
    (∀ a l, mapLookup l a = none →
        GetLocalServer a (.present l) = .error (.unknownServer a)) ∧
    StoreError.noServers.isNotFound = true ∧
    (∀ a, (StoreError.unknownServer a).isNotFound = true) := by
  refine ⟨rfl, fun a => rfl, ?_, rfl, fun a => rfl⟩
  intro a l h
  simp [GetLocalServer, loadServerStore, h]

/-- Closed instance of `store_missing_semantics`. -/
theorem store_missing_semantics_witness :
    GetLocalServer "x" (.present []) = .error (.unknownServer "x") :=
  store_missing_semantics.2.2.1 "x" [] rfl

/-- **C10**: a successful `AddLocalServer` maps the added alias to the new
definition and leaves the persisted binding of every other alias exactly
as it was; a successful `RemoveLocalServer` erases the removed alias and
leaves every other binding unchanged. -/
theorem store_mutation_frame (a : String) (d : ServerDefinition) (file : StoreFile)
    (reg : Registry) (f : StoreFile) (r : Registry) :
    (AddLocalServer a d file reg = (none, f, r) →
        storeLookup f a = some d ∧
        ∀ b, b ≠ a → storeLookup f b = storeLookup file b) ∧
    (RemoveLocalServer a file reg = (none, f, r) →
        storeLookup f a = none ∧
        ∀ b, b ≠ a → storeLookup f b = storeLookup file b) := by
  constructor
  · intro h
    by_cases ha : a = "" <;> by_cases hc : d.command = "" <;> cases file <;>
      simp [AddLocalServer, loadServerStore, ha, hc] at h
    · obtain ⟨hf, -⟩ := h
      subst hf
      refine ⟨by simp [storeLookup], fun b hb => ?_⟩
      simp [storeLookup, mapLookup_insert_ne _ _ _ _ hb, mapLookup, Ne.symm hb]
    · obtain ⟨hf, -⟩ := h
      subst hf
      refine ⟨by simp [storeLookup], fun b hb => ?_⟩
      simp [storeLookup, mapLookup_insert_ne _ _ _ _ hb]
  · intro h
    cases file <;> simp [RemoveLocalServer, loadServerStore] at h
    rename_i l
    rcases hl : mapLookup l a with - | d0
    · rw [hl] at h
      simp at h
    · rw [hl] at h
      simp at h
      obtain ⟨hf, -⟩ := h
      subst hf
      refine ⟨by simp [storeLookup, mapLookup_erase_self], fun b hb => ?_⟩
      simp [storeLookup, mapLookup_erase_ne _ _ _ hb]

/-- Closed instance of `store_mutation_frame`: adding `x` to a store
holding `y` leaves `y`'s binding unchanged, and removing `x` afterwards
leaves `y`'s binding unchanged again. -/
theorem store_mutation_frame_witness :
    (storeLookup (AddLocalServer "x" { command := "c" }
        (.present [("y", { command := "k" })]) []).2.1 "y" =
      storeLookup (.present [("y", { command := "k" })]) "y") ∧
    (storeLookup (RemoveLocalServer "x"
        (.present [("y", { command := "k" }), ("x", { command := "c" })]) []).2.1 "x" =
      none) :=
  ⟨((store_mutation_frame "x" { command := "c" }
      (.present [("y", { command := "k" })]) []
      (AddLocalServer "x" { command := "c" } (.present [("y", { command := "k" })]) []).2.1
      (AddLocalServer "x" { command := "c" } (.present [("y", { command := "k" })]) []).2.2).1
      rfl).2 "y" (by decide),
    ((store_mutation_frame "x" { command := "c" }
      (.present [("y", { command := "k" }), ("x", { command := "c" })]) []
      (RemoveLocalServer "x"
        (.present [("y", { command := "k" }), ("x", { command := "c" })]) []).2.1
      (RemoveLocalServer "x"
        (.present [("y", { command := "k" }), ("x", { command := "c" })]) []).2.2).2
      rfl).1⟩

end SreAI
